import Mathlib

/-!
Active-link marker (`static/Script/navbar.js`)

A shallow embedding of the navigation script and the properties of its
marking pass.

The script reads two pieces of ambient state, `window.location.pathname` and
the node list `document.querySelectorAll('.item-title')`; both are taken as
explicit arguments here.  A DOM string is modelled by `String` (equality of
well-formed strings is equality of their code units).  An element is modelled
by the two parts of it that the script reads or writes: its attribute list
and the token list behind `classList`.
-/

set_option autoImplicit false

namespace Navbar

/-- Exceptions that `DOMTokenList.add` can throw. -/
inductive DOMException where
  | syntaxError
  | invalidCharacterError
deriving DecidableEq

deriving instance DecidableEq for Except

/-- An element of the node list: its attributes other than `class` as
name/value pairs in source order, and the tokens of its `classList`. -/
structure Element where
  attributes : List (String × String)
  classList : List String
deriving DecidableEq

/-- The call `el.getAttribute(name)`: the value of the first attribute with
that name, `none` (JavaScript `null`) when there is no such attribute. -/
def getAttribute (el : Element) (name : String) : Option String :=
  List.lookup name el.attributes

/-- ASCII whitespace as the DOM standard defines it: tab, line feed, form
feed, carriage return, space. -/
def isAsciiWhitespace (c : Char) : Bool :=
  c.toNat = 9 ∨ c.toNat = 10 ∨ c.toNat = 12 ∨ c.toNat = 13 ∨ c.toNat = 32

/-- The call `classList.add(token)`: throws on an empty token or on a token
containing ASCII whitespace; otherwise appends the token to the token list
unless the list already has it. -/
def classListAdd (classList : List String) (token : String) :
    Except DOMException (List String) :=
  if token = "" then .error .syntaxError
  else if token.data.any isAsciiWhitespace then .error .invalidCharacterError
  else if token ∈ classList then .ok classList
  else .ok (classList ++ [token])

/-- The arrow function passed to `navLinks.forEach` (lines 8-13): the strict
comparison `link.getAttribute('href') === currentPath` holds exactly when the
attribute read is a string equal to `currentPath`; then
`link.classList.add('active')` runs on the link. -/
def callback (currentPath : String) (link : Element) : Except DOMException Element :=
  if getAttribute link "href" = some currentPath then
    match classListAdd link.classList "active" with
    | .ok classList => .ok ⟨link.attributes, classList⟩
    | .error e => .error e
  else .ok link

/-- The method `NodeList.prototype.forEach` with a callback that updates the
visited element: elements are visited in list order, and an exception thrown
by the callback ends the iteration. -/
def forEach (f : Element → Except DOMException Element) :
    List Element → Except DOMException (List Element)
  | [] => .ok []
  | x :: xs =>
    match f x with
    | .error e => .error e
    | .ok y =>
      match forEach f xs with
      | .error e => .error e
      | .ok ys => .ok (y :: ys)

/-- The whole script: `pathname` stands for `window.location.pathname` and
`navLinks` for the result of `document.querySelectorAll('.item-title')`; the
result is the state of the visited links after the pass. -/
def navbar (pathname : String) (navLinks : List Element) :
    Except DOMException (List Element) :=
  let currentPath := pathname
  forEach (callback currentPath) navLinks

/-- A link carries the marker when `active` is among its class tokens. -/
def isActive (el : Element) : Prop := "active" ∈ el.classList

instance (el : Element) : Decidable (isActive el) := by
  unfold isActive; infer_instance

/-- The state of a link after a visit that does not throw: `active` is
appended when the link matches and does not have the token yet. -/
def markLink (currentPath : String) (link : Element) : Element :=
  if getAttribute link "href" = some currentPath then
    ⟨link.attributes, if "active" ∈ link.classList then link.classList
      else link.classList ++ ["active"]⟩
  else link

/-- Two strings differ only in letter case: they are different strings
that become equal once every character is mapped to lower case. -/
def differsOnlyInCase (a b : String) : Prop :=
  a ≠ b ∧ a.data.map Char.toLower = b.data.map Char.toLower

/-- Two strings differ only by one trailing slash: one of them is the other
followed by a single `/`. -/
def differsByTrailingSlash (a b : String) : Prop :=
  a = b ++ "/" ∨ b = a ++ "/"

/-- The string `s` ends with `suffix`, as `String.prototype.endsWith` tests it. -/
def endsWith (s suffix : String) : Bool :=
  suffix.data.isSuffixOf s.data

/-! ## Auxiliary lemmas -/

theorem classListAdd_active (classList : List String) :
    classListAdd classList "active" =
      .ok (if "active" ∈ classList then classList else classList ++ ["active"]) := by
  have h1 : ("active" : String) ≠ "" := by decide
  have h2 : ("active" : String).data.any isAsciiWhitespace = false := by decide
  unfold classListAdd
  rw [if_neg h1, h2]
  by_cases h : "active" ∈ classList <;> simp [h]

theorem callback_eq (currentPath : String) (link : Element) :
    callback currentPath link = .ok (markLink currentPath link) := by
  unfold callback markLink
  by_cases h : getAttribute link "href" = some currentPath
  · rw [if_pos h, if_pos h, classListAdd_active]
  · rw [if_neg h, if_neg h]

theorem forEach_callback_eq (currentPath : String) (links : List Element) :
    forEach (callback currentPath) links = .ok (links.map (markLink currentPath)) := by
  induction links with
  | nil => rfl
  | cons x xs ih => simp [forEach, callback_eq, ih]

theorem navbar_eq (currentPath : String) (links : List Element) :
    navbar currentPath links = .ok (links.map (markLink currentPath)) := by
  unfold navbar
  exact forEach_callback_eq currentPath links

theorem markLink_attributes (currentPath : String) (link : Element) :
    (markLink currentPath link).attributes = link.attributes := by
  unfold markLink
  split <;> rfl

theorem markLink_getAttribute (currentPath : String) (link : Element) (name : String) :
    getAttribute (markLink currentPath link) name = getAttribute link name := by
  unfold getAttribute
  rw [markLink_attributes]

theorem mem_markLink_classList (currentPath : String) (link : Element) (token : String) :
    token ∈ (markLink currentPath link).classList ↔
      token ∈ link.classList ∨
        (token = "active" ∧ getAttribute link "href" = some currentPath) := by
  unfold markLink
  by_cases h : getAttribute link "href" = some currentPath
  · by_cases ha : "active" ∈ link.classList
    · simp only [if_pos h, if_pos ha]
      constructor
      · intro ht; exact Or.inl ht
      · rintro (ht | ⟨rfl, -⟩)
        · exact ht
        · exact ha
    · simp only [if_pos h, if_neg ha, List.mem_append, List.mem_singleton]
      constructor
      · rintro (ht | ht)
        · exact Or.inl ht
        · exact Or.inr ⟨ht, h⟩
      · rintro (ht | ⟨ht, -⟩)
        · exact Or.inl ht
        · exact Or.inr ht
  · simp only [if_neg h]
    constructor
    · intro ht; exact Or.inl ht
    · rintro (ht | ⟨-, hp⟩)
      · exact ht
      · exact absurd hp h

theorem isActive_markLink (currentPath : String) (link : Element) :
    isActive (markLink currentPath link) ↔
      isActive link ∨ getAttribute link "href" = some currentPath := by
  unfold isActive
  rw [mem_markLink_classList]
  simp

theorem markLink_of_ne (currentPath : String) (link : Element)
    (h : getAttribute link "href" ≠ some currentPath) : markLink currentPath link = link := by
  unfold markLink
  rw [if_neg h]

theorem markLink_of_active (currentPath : String) (link : Element)
    (h : "active" ∈ link.classList) : markLink currentPath link = link := by
  unfold markLink
  split
  · simp only [if_pos h]
  · rfl

theorem markLink_idem (currentPath : String) (link : Element) :
    markLink currentPath (markLink currentPath link) = markLink currentPath link := by
  by_cases h : getAttribute link "href" = some currentPath
  · apply markLink_of_active
    exact (mem_markLink_classList currentPath link "active").2 (Or.inr ⟨rfl, h⟩)
  · rw [markLink_of_ne currentPath link h, markLink_of_ne currentPath link h]

theorem classList_prefix_markLink (currentPath : String) (link : Element) :
    link.classList <+: (markLink currentPath link).classList := by
  unfold markLink
  split
  · split
    · exact List.prefix_refl _
    · exact List.prefix_append _ _
  · exact List.prefix_refl _

/-- The pass succeeds, keeps the number of links, and the link at each
position of the result is the visited state of the link at that position. -/
theorem navbar_pointwise (currentPath : String) (navLinks : List Element) :
    ∃ out, navbar currentPath navLinks = .ok out ∧ out.length = navLinks.length ∧
      ∀ (i : Nat) (before after : Element), navLinks[i]? = some before →
        out[i]? = some after → after = markLink currentPath before := by
  refine ⟨navLinks.map (markLink currentPath), navbar_eq _ _, List.length_map _ _, ?_⟩
  intro i before after hb ha
  rw [List.getElem?_map, hb] at ha
  simpa using ha.symm

/-! ## The marking pass -/

/-- Claim C1: for every current path and every list of links none of which
has `active` among its class tokens at the start, the pass succeeds and
keeps the list length, and at every position the resulting link has the
attributes it had before and has `active` among its class tokens if and
only if its attribute list holds an `href` attribute whose value is equal
to the current path. -/
theorem active_iff_href_eq (currentPath : String) (navLinks : List Element)
    (hUnmarked : ∀ l ∈ navLinks, "active" ∉ l.classList) :
    ∃ out, navbar currentPath navLinks = .ok out ∧ out.length = navLinks.length ∧
      ∀ (i : Nat) (before after : Element), navLinks[i]? = some before →
        out[i]? = some after →
          (after.attributes = before.attributes ∧
            ("active" ∈ after.classList ↔
              List.lookup "href" before.attributes = some currentPath) ∧
            ("active" ∈ after.classList ↔
              ∃ value, List.lookup "href" before.attributes = some value ∧
                value = currentPath)) := by
  obtain ⟨out, hout, hlen, hpt⟩ := navbar_pointwise currentPath navLinks
  refine ⟨out, hout, hlen, ?_⟩
  intro i before after hb ha
  have hmem : before ∈ navLinks := List.getElem?_mem hb
  rw [hpt i before after hb ha]
  have hiff : "active" ∈ (markLink currentPath before).classList ↔
      List.lookup "href" before.attributes = some currentPath := by
    rw [mem_markLink_classList]
    constructor
    · rintro (h | ⟨-, h⟩)
      · exact absurd h (hUnmarked before hmem)
      · exact h
    · intro h; exact Or.inr ⟨rfl, h⟩
  refine ⟨markLink_attributes _ _, hiff, ?_⟩
  rw [hiff]
  constructor
  · intro h; exact ⟨currentPath, h, rfl⟩
  · rintro ⟨value, h, rfl⟩; exact h

/-- Witness of claim C1 at path `/about` with a matching link, a longer
`href`, and a link without `href`: only the first link is marked. -/
theorem active_iff_href_eq_witness :
    (∀ l ∈ [(⟨[("href", "/about")], ["item-title"]⟩ : Element),
        ⟨[("href", "/about/team")], ["item-title"]⟩, ⟨[], ["item-title"]⟩],
        "active" ∉ l.classList) ∧
    navbar "/about" [(⟨[("href", "/about")], ["item-title"]⟩ : Element),
        ⟨[("href", "/about/team")], ["item-title"]⟩, ⟨[], ["item-title"]⟩] =
      .ok [⟨[("href", "/about")], ["item-title", "active"]⟩,
        ⟨[("href", "/about/team")], ["item-title"]⟩, ⟨[], ["item-title"]⟩] ∧
    ∃ out, navbar "/about" [(⟨[("href", "/about")], ["item-title"]⟩ : Element),
        ⟨[("href", "/about/team")], ["item-title"]⟩, ⟨[], ["item-title"]⟩] = .ok out ∧
      out.length = [(⟨[("href", "/about")], ["item-title"]⟩ : Element),
        ⟨[("href", "/about/team")], ["item-title"]⟩, ⟨[], ["item-title"]⟩].length ∧
      ∀ (i : Nat) (before after : Element),
        [(⟨[("href", "/about")], ["item-title"]⟩ : Element),
          ⟨[("href", "/about/team")], ["item-title"]⟩, ⟨[], ["item-title"]⟩][i]? = some before →
        out[i]? = some after →
          (after.attributes = before.attributes ∧
            ("active" ∈ after.classList ↔
              List.lookup "href" before.attributes = some "/about") ∧
            ("active" ∈ after.classList ↔
              ∃ value, List.lookup "href" before.attributes = some value ∧
                value = "/about")) :=
  ⟨by decide, by decide, active_iff_href_eq "/about" _ (by decide)⟩

/-- Claim C3: the pass is idempotent. For every current path and every list
of links with arbitrary attributes and class tokens, the pass succeeds, and
running it again on its result succeeds and returns that result unchanged;
adding `active` to a token list that already has it returns the same list. -/
theorem navbar_idempotent (currentPath : String) (navLinks : List Element) :
    (∃ once, navbar currentPath navLinks = .ok once ∧ navbar currentPath once = .ok once) ∧
      ∀ tokens : List String, "active" ∈ tokens → classListAdd tokens "active" = .ok tokens := by
  constructor
  · refine ⟨navLinks.map (markLink currentPath), navbar_eq _ _, ?_⟩
    rw [navbar_eq, List.map_map]
    congr 1
    apply List.map_congr_left
    intro l _
    exact markLink_idem currentPath l
  · intro tokens h
    rw [classListAdd_active, if_pos h]

/-- Claim C4: the pass only adds. For every current path and every list of
links the pass succeeds with a list of the same length; at every position the
resulting link has exactly the attributes (so the same `href`) it had
before, its earlier class tokens form a prefix of its class tokens (each is
still present, `active` included), and a token it did not have before can
only be `active`. -/
theorem navbar_only_adds (currentPath : String) (navLinks : List Element) :
    ∃ out, navbar currentPath navLinks = .ok out ∧ out.length = navLinks.length ∧
      ∀ (i : Nat) (before after : Element), navLinks[i]? = some before →
        out[i]? = some after →
          (after.attributes = before.attributes ∧
            getAttribute after "href" = getAttribute before "href" ∧
            before.classList <+: after.classList ∧
            (∀ token ∈ before.classList, token ∈ after.classList) ∧
            (∀ token ∈ after.classList, token ∉ before.classList → token = "active")) := by
  obtain ⟨out, hout, hlen, hpt⟩ := navbar_pointwise currentPath navLinks
  refine ⟨out, hout, hlen, ?_⟩
  intro i before after hb ha
  rw [hpt i before after hb ha]
  refine ⟨markLink_attributes _ _, markLink_getAttribute _ _ _,
    classList_prefix_markLink _ _, ?_, ?_⟩
  · intro token ht
    exact (mem_markLink_classList _ _ _).2 (Or.inl ht)
  · intro token ht hnot
    rcases (mem_markLink_classList _ _ _).1 ht with h | ⟨h, -⟩
    · exact absurd h hnot
    · exact h

/-- Claim C5: every match is marked. For every current path and every list
of links the pass succeeds with a list of the same length, and every link
whose `href` equals the current path carries `active` afterwards, wherever
it stands and however many there are. The links carrying `active` afterwards
are as many as the links that matched or already carried it; when no link
carried it at the start they are as many as the links whose `href` equals
the current path. -/
theorem all_matches_marked (currentPath : String) (navLinks : List Element) :
    ∃ out, navbar currentPath navLinks = .ok out ∧ out.length = navLinks.length ∧
      (∀ (i : Nat) (before after : Element), navLinks[i]? = some before →
        out[i]? = some after →
          getAttribute before "href" = some currentPath → isActive after) ∧
      out.countP (fun l => decide (isActive l)) =
        navLinks.countP
          (fun l => decide (isActive l ∨ getAttribute l "href" = some currentPath)) ∧
      ((∀ l ∈ navLinks, ¬ isActive l) →
        out.countP (fun l => decide (isActive l)) =
          navLinks.countP (fun l => decide (getAttribute l "href" = some currentPath))) := by
  have hcount : (navLinks.map (markLink currentPath)).countP (fun l => decide (isActive l)) =
      navLinks.countP
        (fun l => decide (isActive l ∨ getAttribute l "href" = some currentPath)) := by
    rw [List.countP_map]
    apply List.countP_congr
    intro l _
    simp [isActive_markLink]
  refine ⟨navLinks.map (markLink currentPath), navbar_eq _ _, List.length_map _ _, ?_, hcount, ?_⟩
  · intro i before after hb ha hhref
    rw [List.getElem?_map, hb] at ha
    have hafter : after = markLink currentPath before := by simpa using ha.symm
    rw [hafter, isActive_markLink]
    exact Or.inr hhref
  · intro hUnmarked
    rw [hcount]
    apply List.countP_congr
    intro l hl
    have := hUnmarked l hl
    simp [this]

/-- Witness of claim C5: path `/about`, three initially unmarked links,
the first and the last of which match. -/
theorem all_matches_marked_witness :
    navbar "/about" [(⟨[("href", "/about")], ["item-title"]⟩ : Element),
        ⟨[("href", "/")], ["item-title"]⟩, ⟨[("href", "/about")], []⟩] =
      .ok [⟨[("href", "/about")], ["item-title", "active"]⟩,
        ⟨[("href", "/")], ["item-title"]⟩, ⟨[("href", "/about")], ["active"]⟩] ∧
    ∃ out, navbar "/about" [(⟨[("href", "/about")], ["item-title"]⟩ : Element),
        ⟨[("href", "/")], ["item-title"]⟩, ⟨[("href", "/about")], []⟩] = .ok out ∧
      out.countP (fun l => decide (isActive l)) = 2 := by
  obtain ⟨out, hout, -, -, -, hcount⟩ := all_matches_marked "/about"
    [(⟨[("href", "/about")], ["item-title"]⟩ : Element),
      ⟨[("href", "/")], ["item-title"]⟩, ⟨[("href", "/about")], []⟩]
  refine ⟨by decide, out, hout, ?_⟩
  rw [hcount (by decide)]
  decide

/-- Claim C6: a link without `href` is skipped without error. For every
current path and every link none of whose attributes is named `href`, the
attribute read yields the absent value, which is not equal to the current
path; the visit of the link succeeds and returns the link unchanged; and the
pass over any list containing the link succeeds, leaves the link as it was
and processes the links before and after it as it does on their own. -/
theorem hrefless_link_skipped (currentPath : String) (link : Element)
    (pre post : List Element) (hNoHref : ∀ a ∈ link.attributes, a.1 ≠ "href") :
    getAttribute link "href" = none ∧
      getAttribute link "href" ≠ some currentPath ∧
      callback currentPath link = .ok link ∧
      ∃ outPre outPost, navbar currentPath pre = .ok outPre ∧
        navbar currentPath post = .ok outPost ∧
        navbar currentPath (pre ++ link :: post) = .ok (outPre ++ link :: outPost) := by
  have hNone : getAttribute link "href" = none := by
    unfold getAttribute
    rw [List.lookup_eq_none_iff]
    intro a ha
    simpa using Ne.symm (hNoHref a ha)
  have hne : getAttribute link "href" ≠ some currentPath := by
    rw [hNone]; exact fun h => Option.noConfusion h
  refine ⟨hNone, hne, ?_, pre.map (markLink currentPath), post.map (markLink currentPath),
    navbar_eq _ _, navbar_eq _ _, ?_⟩
  · rw [callback_eq, markLink_of_ne _ _ hne]
  · rw [navbar_eq, List.map_append, List.map_cons, markLink_of_ne _ _ hne]

/-- Witness of claim C6: the current path is the string `null`, and the link
without `href` stands between a matching link and a non-matching one. -/
theorem hrefless_link_skipped_witness :
    (∀ a ∈ (⟨[("id", "null")], ["item-title"]⟩ : Element).attributes, a.1 ≠ "href") ∧
    getAttribute (⟨[("id", "null")], ["item-title"]⟩ : Element) "href" = none ∧
    callback "null" (⟨[("id", "null")], ["item-title"]⟩ : Element) =
      .ok ⟨[("id", "null")], ["item-title"]⟩ ∧
    navbar "null" ([(⟨[("href", "null")], []⟩ : Element)] ++
        (⟨[("id", "null")], ["item-title"]⟩ : Element) :: [⟨[("href", "")], []⟩]) =
      .ok ([(⟨[("href", "null")], ["active"]⟩ : Element)] ++
        (⟨[("id", "null")], ["item-title"]⟩ : Element) :: [⟨[("href", "")], []⟩]) := by
  obtain ⟨hNone, -, hCall, outPre, outPost, hPre, hPost, hAll⟩ := hrefless_link_skipped "null"
    (⟨[("id", "null")], ["item-title"]⟩ : Element) [(⟨[("href", "null")], []⟩ : Element)]
    [⟨[("href", "")], []⟩] (by decide)
  refine ⟨by decide, hNone, hCall, ?_⟩
  have h1 : outPre = [(⟨[("href", "null")], ["active"]⟩ : Element)] := by
    have : navbar "null" [(⟨[("href", "null")], []⟩ : Element)] =
        .ok [(⟨[("href", "null")], ["active"]⟩ : Element)] := by decide
    rw [hPre] at this
    exact Except.ok.inj this
  have h2 : outPost = [(⟨[("href", "")], []⟩ : Element)] := by
    have : navbar "null" [(⟨[("href", "")], []⟩ : Element)] =
        .ok [(⟨[("href", "")], []⟩ : Element)] := by decide
    rw [hPost] at this
    exact Except.ok.inj this
  rw [hAll, h1, h2]

/-- Claim C7: no match means no mutation. For every current path and every
list of links none of whose `href` equals the current path, the pass succeeds
and returns the list unchanged; on the empty list the iteration succeeds
without calling its callback, whatever the callback is. -/
theorem no_match_no_mutation (currentPath : String) (navLinks : List Element)
    (hNoMatch : ∀ l ∈ navLinks, getAttribute l "href" ≠ some currentPath) :
    navbar currentPath navLinks = .ok navLinks ∧
      navbar currentPath [] = .ok [] ∧
      ∀ f : Element → Except DOMException Element, forEach f [] = .ok [] := by
  refine ⟨?_, rfl, fun _ => rfl⟩
  rw [navbar_eq]
  congr 1
  conv_rhs => rw [← List.map_id navLinks]
  apply List.map_congr_left
  intro l hl
  exact markLink_of_ne _ _ (hNoMatch l hl)

/-- Witness of claim C7: path `/missing`, a link with another `href`, a link
without `href` and a link already carrying `active`. -/
theorem no_match_no_mutation_witness :
    (∀ l ∈ [(⟨[("href", "/")], ["item-title"]⟩ : Element), ⟨[], ["item-title"]⟩,
        ⟨[("href", "/about")], ["item-title", "active"]⟩],
        getAttribute l "href" ≠ some "/missing") ∧
    navbar "/missing" [(⟨[("href", "/")], ["item-title"]⟩ : Element), ⟨[], ["item-title"]⟩,
        ⟨[("href", "/about")], ["item-title", "active"]⟩] =
      .ok [(⟨[("href", "/")], ["item-title"]⟩ : Element), ⟨[], ["item-title"]⟩,
        ⟨[("href", "/about")], ["item-title", "active"]⟩] :=
  ⟨by decide, (no_match_no_mutation "/missing" _ (by decide)).1⟩

theorem ne_append_slash (a : String) : a ≠ a ++ "/" := by
  intro h
  have hlen := congrArg String.length h
  rw [String.length_append] at hlen
  have h1 : ("/" : String).length = 1 := by decide
  omega

theorem ne_of_case_or_slash (href currentPath : String)
    (hDiff : differsOnlyInCase href currentPath ∨ differsByTrailingSlash href currentPath) :
    href ≠ currentPath := by
  rcases hDiff with h | h | h
  · exact h.1
  · intro heq
    rw [heq] at h
    exact ne_append_slash _ h
  · intro heq
    rw [← heq] at h
    exact ne_append_slash _ h

/-- Claim C8: matching neither folds case nor normalises slashes. For every
current path and every link whose `href` differs from it only in letter case
or only by one trailing `/`, the visit of the link succeeds and returns it
unchanged, and so does the pass at that link in any list (a link not carrying
`active` before does not carry it after); path `/About` does not mark
`href` `/about`, and path `/about/` does not mark `href` `/about`. -/
theorem no_case_or_slash_match (currentPath href : String) (link : Element)
    (pre post : List Element) (hHref : getAttribute link "href" = some href)
    (hDiff : differsOnlyInCase href currentPath ∨ differsByTrailingSlash href currentPath) :
    callback currentPath link = .ok link ∧
      (∃ outPre outPost, outPre.length = pre.length ∧
        navbar currentPath (pre ++ link :: post) = .ok (outPre ++ link :: outPost)) ∧
      (¬ isActive link → ∀ out, navbar currentPath [link] = .ok out → ∀ l ∈ out, ¬ isActive l) ∧
      navbar "/About" [⟨[("href", "/about")], ["item-title"]⟩] =
        .ok [⟨[("href", "/about")], ["item-title"]⟩] ∧
      navbar "/about/" [⟨[("href", "/about")], ["item-title"]⟩] =
        .ok [⟨[("href", "/about")], ["item-title"]⟩] := by
  have hne : getAttribute link "href" ≠ some currentPath := by
    rw [hHref]
    intro h
    exact ne_of_case_or_slash href currentPath hDiff (Option.some.inj h)
  refine ⟨?_, ⟨pre.map (markLink currentPath), post.map (markLink currentPath),
    List.length_map _ _, ?_⟩, ?_, by decide, by decide⟩
  · rw [callback_eq, markLink_of_ne _ _ hne]
  · rw [navbar_eq, List.map_append, List.map_cons, markLink_of_ne _ _ hne]
  · intro hna out hout l hl
    rw [navbar_eq, List.map_cons, List.map_nil, markLink_of_ne _ _ hne] at hout
    have : out = [link] := (Except.ok.inj hout).symm
    rw [this, List.mem_singleton] at hl
    rw [hl]
    exact hna

/-- Witness of claim C8: `href` `/about` against path `/About` (letter case)
and against path `/about/` (trailing slash). -/
theorem no_case_or_slash_match_witness :
    (differsOnlyInCase "/about" "/About" ∧
      callback "/About" ⟨[("href", "/about")], ["item-title"]⟩ =
        .ok ⟨[("href", "/about")], ["item-title"]⟩) ∧
    (differsByTrailingSlash "/about" "/about/" ∧
      callback "/about/" ⟨[("href", "/about")], ["item-title"]⟩ =
        .ok ⟨[("href", "/about")], ["item-title"]⟩) :=
  ⟨⟨⟨by decide, by decide⟩,
      (no_case_or_slash_match "/About" "/about" ⟨[("href", "/about")], ["item-title"]⟩ [] []
        (by decide) (Or.inl ⟨by decide, by decide⟩)).1⟩,
    ⟨Or.inr (by decide),
      (no_case_or_slash_match "/about/" "/about" ⟨[("href", "/about")], ["item-title"]⟩ [] []
        (by decide) (Or.inr (Or.inr (by decide)))).1⟩⟩

/-- Claim C9: a single match among distinct links. When no two links share
a present `href`, no link carries `active` at the start, and the link at
position `k` has `href` equal to the current path, the pass succeeds with a
list of the same length in which the link at position `k`, and no other,
carries `active`. Path `/services` over hrefs `/`, `/services`, `/contact`
marks only the second link; path `/` over hrefs `/`, `/about` marks only
the first. -/
theorem unique_match_marked (currentPath : String) (navLinks : List Element) (k : Nat)
    (target : Element)
    (hDistinct : navLinks.Pairwise (fun a b =>
      ∀ s, getAttribute a "href" = some s → getAttribute b "href" ≠ some s))
    (hUnmarked : ∀ l ∈ navLinks, ¬ isActive l)
    (hk : navLinks[k]? = some target)
    (hMatch : getAttribute target "href" = some currentPath) :
    (∃ out, navbar currentPath navLinks = .ok out ∧ out.length = navLinks.length ∧
      ∀ (i : Nat) (after : Element), out[i]? = some after → (isActive after ↔ i = k)) ∧
    navbar "/services" [⟨[("href", "/")], ["item-title"]⟩,
        ⟨[("href", "/services")], ["item-title"]⟩, ⟨[("href", "/contact")], ["item-title"]⟩] =
      .ok [⟨[("href", "/")], ["item-title"]⟩,
        ⟨[("href", "/services")], ["item-title", "active"]⟩,
        ⟨[("href", "/contact")], ["item-title"]⟩] ∧
    navbar "/" [⟨[("href", "/")], ["item-title"]⟩, ⟨[("href", "/about")], ["item-title"]⟩] =
      .ok [⟨[("href", "/")], ["item-title", "active"]⟩,
        ⟨[("href", "/about")], ["item-title"]⟩] := by
  refine ⟨⟨navLinks.map (markLink currentPath), navbar_eq _ _, List.length_map _ _, ?_⟩,
    by decide, by decide⟩
  intro i after ha
  rw [List.getElem?_map] at ha
  obtain ⟨before, hb, hafter⟩ := Option.map_eq_some'.1 ha
  have hmem : before ∈ navLinks := List.getElem?_mem hb
  rw [← hafter, isActive_markLink]
  obtain ⟨hi, hib⟩ := List.getElem?_eq_some.1 hb
  obtain ⟨hk', hkt⟩ := List.getElem?_eq_some.1 hk
  have hpair := List.pairwise_iff_getElem.1 hDistinct
  constructor
  · rintro (h | h)
    · exact absurd h (hUnmarked before hmem)
    · by_contra hne
      rcases Nat.lt_or_gt_of_ne hne with hlt | hgt
      · have := hpair i k hi hk' hlt currentPath (by rw [hib]; exact h)
        rw [hkt] at this
        exact this hMatch
      · have := hpair k i hk' hi hgt currentPath (by rw [hkt]; exact hMatch)
        rw [hib] at this
        exact this h
  · intro hik
    subst hik
    rw [hb] at hk
    rw [Option.some.inj hk]
    exact Or.inr hMatch

/-- Witness of claim C9: path `/services` over hrefs `/`, `/services`,
`/contact`; the matching link stands at position 1. -/
theorem unique_match_marked_witness :
    ∃ out, navbar "/services" [⟨[("href", "/")], ["item-title"]⟩,
        ⟨[("href", "/services")], ["item-title"]⟩, ⟨[("href", "/contact")], ["item-title"]⟩] =
        .ok out ∧
      out.length = [(⟨[("href", "/")], ["item-title"]⟩ : Element),
        ⟨[("href", "/services")], ["item-title"]⟩,
        ⟨[("href", "/contact")], ["item-title"]⟩].length ∧
      ∀ (i : Nat) (after : Element), out[i]? = some after → (isActive after ↔ i = 1) :=
  (unique_match_marked "/services" [⟨[("href", "/")], ["item-title"]⟩,
      ⟨[("href", "/services")], ["item-title"]⟩, ⟨[("href", "/contact")], ["item-title"]⟩] 1
    ⟨[("href", "/services")], ["item-title"]⟩
    (by simp [getAttribute]) (by decide) (by decide) (by decide)).1

/-- Claim C10: links are treated independently. There is a per-link step,
the result of the callback, such that the pass over any list is that step
applied to each element; the pass over a concatenation is the pass over
the first part followed by the pass over the second; for every permutation
of the positions, the pass over the permuted list is the permuted result of
the pass; and whether the link at a position carries `active` afterwards is
a function of the current path, that link's `href` and that link's class
tokens alone. -/
theorem marking_is_elementwise :
    ∃ step : String → Element → Element,
      (∀ currentPath link, callback currentPath link = .ok (step currentPath link)) ∧
      (∀ currentPath navLinks,
        navbar currentPath navLinks = .ok (navLinks.map (step currentPath))) ∧
      (∀ currentPath l₁ l₂, ∃ out₁ out₂, navbar currentPath l₁ = .ok out₁ ∧
        navbar currentPath l₂ = .ok out₂ ∧
        navbar currentPath (l₁ ++ l₂) = .ok (out₁ ++ out₂)) ∧
      (∀ currentPath (navLinks : List Element) (σ : Equiv.Perm (Fin navLinks.length)),
        ∃ (out : List Element) (hlen : navLinks.length = out.length),
          navbar currentPath navLinks = .ok out ∧
          navbar currentPath (List.ofFn (fun i => navLinks.get (σ i))) =
            .ok (List.ofFn (fun i => out.get (Fin.cast hlen (σ i))))) ∧
      (∃ marked : String → Option String → List String → Bool,
        ∀ currentPath (pre : List Element) (link : Element) (post : List Element),
          ∃ outPre after outPost, outPre.length = pre.length ∧
            navbar currentPath (pre ++ link :: post) = .ok (outPre ++ after :: outPost) ∧
            (isActive after ↔
              marked currentPath (getAttribute link "href") link.classList = true)) := by
  refine ⟨markLink, callback_eq, navbar_eq, ?_, ?_, ?_⟩
  · intro currentPath l₁ l₂
    exact ⟨_, _, navbar_eq _ _, navbar_eq _ _, by rw [navbar_eq, List.map_append]⟩
  · intro currentPath navLinks σ
    refine ⟨navLinks.map (markLink currentPath), (List.length_map _ _).symm, navbar_eq _ _, ?_⟩
    rw [navbar_eq, List.map_ofFn]
    congr 1
    apply congrArg
    funext i
    simp [List.get_eq_getElem]
  · refine ⟨fun currentPath href tokens =>
      decide ("active" ∈ tokens ∨ href = some currentPath), ?_⟩
    intro currentPath pre link post
    refine ⟨pre.map (markLink currentPath), markLink currentPath link,
      post.map (markLink currentPath), List.length_map _ _, ?_, ?_⟩
    · rw [navbar_eq, List.map_append, List.map_cons]
    · rw [isActive_markLink]
      simp [isActive]

/-- Claim C2, evaluated on the code: with current path `/about`, the hrefs
`/team/about` and `https://host/about` both end with the path, and the
pass leaves both links without `active`. -/
theorem suffix_href_not_marked :
    endsWith "/team/about" "/about" = true ∧
    endsWith "https://host/about" "/about" = true ∧
    navbar "/about" [⟨[("href", "/team/about")], ["item-title"]⟩,
        ⟨[("href", "https://host/about")], ["item-title"]⟩] =
      .ok [⟨[("href", "/team/about")], ["item-title"]⟩,
        ⟨[("href", "https://host/about")], ["item-title"]⟩] := by
  decide

end Navbar
